import Mathlib

/-!
Verification of the bind-property change-notification engine.

The definitions below are a shallow embedding of the library's current
sources: `src/utils.js` (listener registries, priority queues, the
coalescing change scheduler `queueNotification`, the flush/`notify`
dispatch) and `src/index.js` (the `bindable` decorator with
`createGetter`/`createSetter`/`getPropertyValues`/`notifyPreCommit`).

Modelling conventions:
* JavaScript values flowing through bound properties are modelled as
  `Option Int`, with `none` playing the role of `undefined`.  The only
  operation the engine performs on them is the strict-equality test
  `===`, which on this universe is decidable equality.  (Exotic values
  for which `===` is not reflexive, such as `NaN`, are outside the
  model; none of the verified properties concern them.)
* A JavaScript `Map` is an insertion-ordered association list; `set` on
  an existing key overwrites the value in place, keeping the key's
  position, and otherwise appends.  A plain object used as a dictionary
  (the per-instance value store and the per-owner `changes` record)
  behaves the same way for string keys.  A `Set` is an insertion-ordered
  duplicate-free list; `add` of a present element keeps its position.
* Listener callbacks are identified by numeric ids (reference identity).
  The behaviour of a pre-commit callback is supplied by an environment
  `PCEnv`; its result is the boolean "the call returned exactly `false`",
  which is the only aspect of the return value the engine inspects
  (`item.callback(...) === false`).  Commit-listener return values are
  ignored by the engine, so commit dispatch is recorded as a call trace.
* `requestAnimationFrame` is modelled by the armed flag `nextFrameId`
  together with an explicit `flush` function that executes the body of
  the scheduled callback.
-/

namespace BindProperty

/-- Values held by bound properties; `none` stands for `undefined`. -/
abbrev Value := Option Int

/-- One accumulated change record `{oldValue, newValue}`. -/
structure Change where
  oldValue : Value
  newValue : Value
deriving DecidableEq, Repr

/-- A `changes` object: property name keyed, insertion ordered. -/
abbrev Changes := List (String × Change)

/-- A priority-queue entry `{callback, priority}` (callbacks are ids). -/
abbrev Entry := Nat × Int

/-- A listener `Map`: callback id keyed, insertion ordered, value is the
priority. -/
abbrev ListenerMap := List (Nat × Int)

/-- The per-instance value store kept in the `activeBindings` WeakMap. -/
abbrev PropStore := List (String × Value)

/-- Behaviour of pre-commit callbacks: given the callback id, the
changes object, the accumulated canceled flag and the priority, tells
whether the call returned exactly `false`. -/
abbrev PCEnv := Nat → Changes → Bool → Int → Bool

/-- Lookup in an insertion-ordered association list. -/
def assocGet {α β : Type} [DecidableEq α] : List (α × β) → α → Option β
  | [], _ => none
  | (k, v) :: rest, key => if k = key then some v else assocGet rest key

/-- Write to an insertion-ordered association list: overwrite in place
when the key is present (keeping its position, as `Map.set` and plain
object assignment do), append otherwise. -/
def assocSet {α β : Type} [DecidableEq α] : List (α × β) → α → β → List (α × β)
  | [], key, v => [(key, v)]
  | (k, w) :: rest, key, v =>
    if k = key then (key, v) :: rest else (k, w) :: assocSet rest key v

/-- Reading a property of a plain object yields `undefined` when the
key is absent. -/
def readStore (store : PropStore) (property : String) : Value :=
  (assocGet store property).getD none

/-- The `~~` coercion applied to priorities by `priorityComparator`:
truncation to a signed 32-bit integer (identity on in-range integers). -/
def toInt32 (n : Int) : Int := (n + 2 ^ 31) % 2 ^ 32 - 2 ^ 31

/-- Stable insertion of an entry into a run of already-placed entries:
the new entry goes after every entry whose (32-bit truncated) priority
is less than or equal to its own, exactly the order a stable sort under
`priorityComparator` produces. -/
def insertEntry (entry : Entry) : List Entry → List Entry
  | [] => [entry]
  | x :: xs =>
    if toInt32 x.2 ≤ toInt32 entry.2 then x :: insertEntry entry xs
    else entry :: x :: xs

/-- Stable sort of entries by ascending `toInt32` priority, ties kept in
input order.  `Array.prototype.sort` is required to be stable, and
`priorityComparator` compares exactly the truncated priorities, so this
is the sort the source performs. -/
def sortEntries (l : List Entry) : List Entry :=
  l.foldl (fun acc e => insertEntry e acc) []

/-- Model of `buildPriorityQueue(callbackMap, queue)` from `utils.js`:
entries are pushed in `Map` iteration (insertion) order and then sorted
with `priorityComparator`.  The source only ever calls it with an empty
`queue` array, so the result is the stable sort of the map. -/
def buildPriorityQueue (callbackMap : ListenerMap) : List Entry :=
  sortEntries callbackMap

/-- An owner instance together with the side-table state the engine
attaches to it: the lazily created value store (`activeBindings`), the
two listener maps and the two cached priority queues (`shareStore`), and
the `suspendNotifications` flag installed by `mixinNotifier`. -/
structure Instance where
  id : Nat
  values : Option PropStore
  suspendNotifications : Bool
  changeListeners : ListenerMap
  preCommitListeners : ListenerMap
  priorityQueue : List Entry
  preCommitPriorityQueue : List Entry
deriving DecidableEq, Repr

/-- A fresh instance of a class whose prototype went through
`mixinNotifier`: no value store yet, empty listener registries, empty
cached queues, and `suspendNotifications` defaulting to `false`
(`suspendNotifications: {value: false, writable: true}`). -/
def freshInstance (id : Nat) : Instance :=
  { id := id
    values := none
    suspendNotifications := false
    changeListeners := []
    preCommitListeners := []
    priorityQueue := []
    preCommitPriorityQueue := [] }

/-- Model of `addChangeListener(callback, priority = 0)`: empties the
cached commit priority queue and writes the callback into the commit
listener `Map` (overwriting the priority of an already-registered
callback in place). -/
def addChangeListener (self : Instance) (callback : Nat) (priority : Int) : Instance :=
  { self with
    priorityQueue := []
    changeListeners := assocSet self.changeListeners callback priority }

/-- Model of `addPreCommitListener(callback, priority = 0)`. -/
def addPreCommitListener (self : Instance) (callback : Nat) (priority : Int) : Instance :=
  { self with
    preCommitPriorityQueue := []
    preCommitListeners := assocSet self.preCommitListeners callback priority }

/-- Model of `getPropertyValues(context)`: returns the per-instance
value store, creating an empty one on first access. -/
def getPropertyValues (context : Instance) : PropStore × Instance :=
  match context.values with
  | some values => (values, context)
  | none => ([], { context with values := some [] })

/-- One recorded pre-commit callback invocation: the callback id and
priority, the accumulated `canceled` flag it was passed, and whether it
returned exactly `false`. -/
structure PCCall where
  cb : Nat
  priority : Int
  passed : Bool
  retFalse : Bool
deriving DecidableEq, Repr

/-- The `queue.forEach` loop of `notifyPreCommit`:
`canceled = (item.callback(source, changes, canceled, item.priority) === false) || canceled`.
Returns the final flag and the trace of calls. -/
def pcForEach (env : PCEnv) (changes : Changes) : Bool → List Entry → Bool × List PCCall
  | canceled, [] => (canceled, [])
  | canceled, item :: rest =>
    let r := env item.1 changes canceled item.2
    let next := pcForEach env changes (r || canceled) rest
    (next.1, ⟨item.1, item.2, canceled, r⟩ :: next.2)

/-- Model of `notifyPreCommit(source, changes)`: rebuilds the cached
pre-commit priority queue when it is empty, runs every queued listener
in order accumulating the canceled flag, and returns the flag, the
(possibly rebuilt) cache and the call trace. -/
def notifyPreCommit (env : PCEnv) (cache : List Entry) (listeners : ListenerMap)
    (changes : Changes) : Bool × List Entry × List PCCall :=
  let queue := if cache.isEmpty then buildPriorityQueue listeners else cache
  let run := pcForEach env changes false queue
  (run.1, queue, run.2)

/-- Global scheduler state of `utils.js`: the per-owner pending change
map `changesByObject`, the owner `Set` `queue`, and the armed flag
`nextFrameId`. -/
structure Sched where
  changesByObject : List (Nat × Changes)
  queue : List Nat
  nextFrameId : Bool
deriving DecidableEq, Repr

/-- The scheduler state before any notification is queued. -/
def initialSched : Sched :=
  { changesByObject := [], queue := [], nextFrameId := false }

/-- `Set.add`: append if absent, keep position if present. -/
def addUnique (l : List Nat) (o : Nat) : List Nat :=
  if o ∈ l then l else l ++ [o]

/-- Model of `queueNotification(source, propertyName, oldValue, newValue)`:
a no-op when `oldValue === newValue`; otherwise writes
`changes[propertyName] = {oldValue, newValue}` into the owner's (created
on demand) change record, adds the owner to the pending `Set`, and arms
the deferred flush (`requestAnimationFrame`) when not already armed. -/
def queueNotification (source : Nat) (propertyName : String) (oldValue newValue : Value)
    (s : Sched) : Sched :=
  if oldValue = newValue then s
  else
    let info := (assocGet s.changesByObject source).getD []
    { changesByObject :=
        assocSet s.changesByObject source (assocSet info propertyName ⟨oldValue, newValue⟩)
      queue := addUnique s.queue source
      nextFrameId := true }

/-- Model of `notify(source, changes)`: rebuilds the cached commit
priority queue from the commit listener map when it is empty, then
invokes `entry.callback(source, changes, entry.priority)` for each
entry in order.  The returned entry list is the trace of invocations. -/
def notify (source : Instance) (changes : Changes) : Instance × List Entry :=
  let queue :=
    if source.priorityQueue.isEmpty then buildPriorityQueue source.changeListeners
    else source.priorityQueue
  ({ source with priorityQueue := queue }, queue)

/-- One step of the flush loop: look up the owner's accumulated changes
in the snapshot and dispatch `notify`. -/
def flushStep (changesByObject : List (Nat × Changes))
    (acc : List (Nat × Changes × List Entry) × (Nat → Instance)) (source : Nat) :
    List (Nat × Changes × List Entry) × (Nat → Instance) :=
  let changes := (assocGet changesByObject source).getD []
  let run := notify (acc.2 source) changes
  (acc.1 ++ [(source, changes, run.2)], fun n => if n = source then run.1 else acc.2 n)

/-- Model of the `requestAnimationFrame` callback body in
`queueNotification`: snapshot `queue` and `changesByObject`, reset both
and clear `nextFrameId`, then dispatch `notify` once per queued owner in
insertion order.  Returns the dispatch trace (owner, changes, commit
calls), the updated instances, and the reset scheduler state. -/
def flush (world : Nat → Instance) (s : Sched) :
    List (Nat × Changes × List Entry) × (Nat → Instance) × Sched :=
  let run := s.queue.foldl (flushStep s.changesByObject) ([], world)
  (run.1, run.2, initialSched)

/-- A getter installed by the decorator.  `made property` is the closure
returned by `createGetter(property)`. -/
inductive GetFn where
  | made (property : String)
deriving DecidableEq, Repr

/-- Model of `createGetter(property)`. -/
def createGetter (property : String) : GetFn := GetFn.made property

/-- A setter installed by the decorator, i.e. a closure returned by
`createSetter(property, descriptor)`.  `base property` captured a
descriptor with no setter; `wrap property dget inner` captured a
descriptor whose getter was `dget` and whose setter was the previously
installed `inner` (the shape produced when `bindable` wraps an already
bound property). -/
inductive SetFn where
  | base (property : String)
  | wrap (property : String) (dget : Option GetFn) (inner : SetFn)
deriving DecidableEq, Repr

/-- Trace events of a property write: pre-commit listener calls and
calls to `queueNotification`. -/
inductive Ev where
  | pc (cb : Nat) (priority : Int) (passed retFalse : Bool)
  | enq (source : Nat) (propertyName : String) (oldValue newValue : Value)
deriving DecidableEq, Repr

/-- Whether a trace event is an enqueue. -/
def Ev.isEnq : Ev → Bool
  | .enq _ _ _ _ => true
  | _ => false

/-- Whether a trace event is a pre-commit call that returned exactly
`false`. -/
def Ev.retFalse : Ev → Bool
  | .pc _ _ _ r => r
  | _ => false

/-- Running a `createGetter` closure: reads the property from the
(lazily created) per-instance value store. -/
def runGetter : GetFn → Instance → Value × Instance
  | GetFn.made property, self =>
    let gp := getPropertyValues self
    (readStore gp.1 property, gp.2)

/-- Running a `createSetter` closure on `newValue`.  Mirrors the source:
read `suspendNotifications` and the stored value; call the captured
descriptor setter if present and re-read through the captured getter;
return when the value is unchanged or the pre-commit dispatch cancels;
otherwise queue a notification when not suspended and at least one
commit listener exists, and store the new value. -/
def runSetter (env : PCEnv) : SetFn → Instance → Sched → Value →
    Instance × Sched × List Ev
  | SetFn.base property, self0, sched, newValue =>
    let suspend := self0.suspendNotifications
    let gp := getPropertyValues self0
    let self := gp.2
    let value := readStore gp.1 property
    let oldValue := value
    if value = newValue then (self, sched, [])
    else
      let changes : Changes := [(property, ⟨oldValue, newValue⟩)]
      let run := notifyPreCommit env self.preCommitPriorityQueue self.preCommitListeners changes
      let self := { self with preCommitPriorityQueue := run.2.1 }
      let evs := run.2.2.map fun c => Ev.pc c.cb c.priority c.passed c.retFalse
      if run.1 then (self, sched, evs)
      else
        let doQueue := suspend = false ∧ self.changeListeners ≠ []
        let sched' := if doQueue then queueNotification self.id property oldValue newValue sched
          else sched
        let evs := if doQueue then evs ++ [Ev.enq self.id property oldValue newValue] else evs
        let gp2 := getPropertyValues self
        ({ gp2.2 with values := some (assocSet gp2.1 property newValue) }, sched', evs)
  | SetFn.wrap property dget inner, self0, sched0, newValue =>
    let suspend := self0.suspendNotifications
    let gp := getPropertyValues self0
    let value0 := readStore gp.1 property
    let innerRun := runSetter env inner gp.2 sched0 newValue
    let sched := innerRun.2.1
    let evs0 := innerRun.2.2
    let reread :=
      match dget with
      | some g => runGetter g innerRun.1
      | none => (value0, innerRun.1)
    let self := reread.2
    let value := reread.1
    let oldValue := value
    if value = newValue then (self, sched, evs0)
    else
      let changes : Changes := [(property, ⟨oldValue, newValue⟩)]
      let run := notifyPreCommit env self.preCommitPriorityQueue self.preCommitListeners changes
      let self := { self with preCommitPriorityQueue := run.2.1 }
      let evs := evs0 ++ run.2.2.map fun c => Ev.pc c.cb c.priority c.passed c.retFalse
      if run.1 then (self, sched, evs)
      else
        let doQueue := suspend = false ∧ self.changeListeners ≠ []
        let sched' := if doQueue then queueNotification self.id property oldValue newValue sched
          else sched
        let evs := if doQueue then evs ++ [Ev.enq self.id property oldValue newValue] else evs
        let gp2 := getPropertyValues self
        ({ gp2.2 with values := some (assocSet gp2.1 property newValue) }, sched', evs)

/-- The value an instance currently exposes for a bound property. -/
def readProp (inst : Instance) (property : String) : Value :=
  readStore (inst.values.getD []) property

/-- A property descriptor as far as the decorator manipulates one:
optional getter and setter, the enumerable bit, and the configurable
bit tracked because `bindable` defines properties without specifying
`configurable`. -/
structure PDescriptor where
  getF : Option GetFn
  setF : Option SetFn
  enumerable : Bool
  configurable : Bool
deriving DecidableEq, Repr

/-- A class prototype as the decorator sees it: its own property
descriptors, the `activeBindings` mixin marker, and the set of getter
functions registered in `activeBindings`.  The source never inserts a
getter into `activeBindings` (only prototypes and instances are ever
used as keys, by `bindable` and `getPropertyValues`), so no operation
in this development extends `getterKeys`. -/
structure Proto where
  props : List (String × PDescriptor)
  mixedIn : Bool
  getterKeys : List GetFn
deriving DecidableEq, Repr

/-- A prototype no decorator has touched and with no own properties. -/
def freshProto : Proto :=
  { props := [], mixedIn := false, getterKeys := [] }

/-- Model of `Object.defineProperty(prototype, property, {get, set, enumerable})`
as invoked by `bindable` — note `configurable` is absent from the
descriptor.  Creating a property this way leaves it non-configurable;
redefining an existing configurable property keeps it configurable; and
redefining a non-configurable property throws a `TypeError` unless every
supplied attribute equals the current one. -/
def defineProperty (pr : Proto) (property : String) (g : Option GetFn) (s : Option SetFn)
    (enum : Bool) : Except Unit Proto :=
  match assocGet pr.props property with
  | none =>
    Except.ok { pr with props := assocSet pr.props property ⟨g, s, enum, false⟩ }
  | some old =>
    if old.configurable then
      Except.ok { pr with props := assocSet pr.props property ⟨g, s, enum, true⟩ }
    else if g = old.getF ∧ s = old.setF ∧ enum = old.enumerable then Except.ok pr
    else Except.error ()

/-- Model of `createSetter(property, descriptor)` at the descriptor
level: the returned closure captures the descriptor's getter and
setter. -/
def createSetter (property : String) (d : PDescriptor) : SetFn :=
  match d.setF with
  | none => SetFn.base property
  | some inner => SetFn.wrap property d.getF inner

/-- Model of the `bindable(property)` decorator applied to a class
prototype: run `mixinNotifier` once per prototype, read the own
property descriptor (an empty one when absent), return unchanged when
the descriptor's getter is registered in `activeBindings`, and
otherwise define the accessor pair
`{get: descriptor.get || createGetter(property), set: createSetter(property, descriptor), enumerable: descriptor.enumerable}`. -/
def bindable (property : String) (pr0 : Proto) : Except Unit Proto :=
  let pr := if pr0.mixedIn then pr0 else { pr0 with mixedIn := true }
  let d := (assocGet pr.props property).getD ⟨none, none, false, false⟩
  let alreadyBound :=
    match d.getF with
    | some g => decide (g ∈ pr.getterKeys)
    | none => false
  if alreadyBound then Except.ok pr
  else
    defineProperty pr property (some (d.getF.getD (createGetter property)))
      (some (createSetter property d)) d.enumerable

/-- Scenario harness: three consecutive writes `v1, v2, v3` to property
`p` of a single bound instance (commit listeners `L`, no pre-commit
listeners, notifications not suspended, stored value initially `v0`),
followed by the deferred flush.  Returns the flush dispatch trace. -/
def threeWrites (env : PCEnv) (o : Nat) (p : String) (L : ListenerMap)
    (v0 v1 v2 v3 : Value) : List (Nat × Changes × List Entry) :=
  let inst0 : Instance := ⟨o, some [(p, v0)], false, L, [], [], []⟩
  let r1 := runSetter env (SetFn.base p) inst0 initialSched v1
  let r2 := runSetter env (SetFn.base p) r1.1 r1.2.1 v2
  let r3 := runSetter env (SetFn.base p) r2.1 r2.2.1 v3
  (flush (fun _ => r3.1) r3.2.1).1

/-- The argument tuple of one `queueNotification` call. -/
structure WriteEvent where
  source : Nat
  propertyName : String
  oldValue : Value
  newValue : Value
deriving DecidableEq, Repr

/-- Running a sequence of `queueNotification` calls against the
scheduler, in order (all within one tick, before any flush). -/
def runEvents : List WriteEvent → Sched → Sched
  | [], s => s
  | e :: rest, s =>
    runEvents rest (queueNotification e.source e.propertyName e.oldValue e.newValue s)

/-- The owners of the effective (value-changing) events, in event
order, with multiplicity. -/
def effOwners (evs : List WriteEvent) : List Nat :=
  (evs.filter fun e => decide (¬ e.oldValue = e.newValue)).map WriteEvent.source

/-- First-occurrence deduplication, the order a `Set` accumulates
insertions. -/
def firstOccurs (l : List Nat) : List Nat := l.foldl addUnique []

/-- Specification step: how one event updates one owner's accumulated
changes record (skipping other owners' events and no-op writes). -/
def ownUpdate (o : Nat) (c : Changes) (e : WriteEvent) : Changes :=
  if e.source = o ∧ ¬ e.oldValue = e.newValue
  then assocSet c e.propertyName ⟨e.oldValue, e.newValue⟩ else c

/-- Specification accumulator for `ownChanges`. -/
def ownAccum (o : Nat) : List WriteEvent → Changes → Changes
  | [], c => c
  | e :: rest, c => ownAccum o rest (ownUpdate o c e)

/-- Specification of the changes one owner accumulates from a sequence
of events: exactly its own effective events, first-to-last, each
overwriting that property's entry. -/
def ownChanges (o : Nat) (evs : List WriteEvent) : Changes :=
  ownAccum o evs []

/-- Option-level version of `ownUpdate`, tracking whether the owner has
a change record at all. -/
def ownStep (o : Nat) (c : Option Changes) (e : WriteEvent) : Option Changes :=
  if e.source = o ∧ ¬ e.oldValue = e.newValue
  then some (assocSet (c.getD []) e.propertyName ⟨e.oldValue, e.newValue⟩) else c

section Lemmas

/-- The value-store component returned by `getPropertyValues`. -/
theorem getPropertyValues_fst (inst : Instance) :
    (getPropertyValues inst).1 = inst.values.getD [] := by
  unfold getPropertyValues
  cases h : inst.values <;> simp [h]

/-- The instance returned by `getPropertyValues` holds the same store,
now materialised. -/
theorem getPropertyValues_snd_values (inst : Instance) :
    (getPropertyValues inst).2.values = some (inst.values.getD []) := by
  unfold getPropertyValues
  cases h : inst.values <;> simp [h]

/-- Reading through `getPropertyValues` agrees with `readProp`. -/
theorem readStore_getPropertyValues (inst : Instance) (p : String) :
    readStore (getPropertyValues inst).1 p = readProp inst p := by
  rw [readProp, getPropertyValues_fst]

/-- Reading the property value of the instance returned by
`getPropertyValues` agrees with reading the original instance. -/
theorem readProp_getPropertyValues_snd (inst : Instance) (p : String) :
    readProp (getPropertyValues inst).2 p = readProp inst p := by
  rw [readProp, getPropertyValues_snd_values, Option.getD_some, readProp]

/-- The ordering used by `priorityComparator`. -/
def entLE (a b : Entry) : Prop := toInt32 a.2 ≤ toInt32 b.2

theorem insertEntry_perm (e : Entry) (l : List Entry) :
    List.Perm (insertEntry e l) (e :: l) := by
  induction l with
  | nil => simp [insertEntry]
  | cons x xs ih =>
    unfold insertEntry
    split
    · exact ((ih.cons x).trans (List.Perm.swap e x xs))
    · exact List.Perm.refl _

theorem sortEntries_aux_perm (l : List Entry) :
    ∀ acc : List Entry, List.Perm (l.foldl (fun acc e => insertEntry e acc) acc) (acc ++ l) := by
  induction l with
  | nil => intro acc; simp
  | cons e rest ih =>
    intro acc
    have h1 : List.Perm (rest.foldl (fun acc e => insertEntry e acc) (insertEntry e acc))
        (insertEntry e acc ++ rest) := ih (insertEntry e acc)
    have h2 : List.Perm (insertEntry e acc ++ rest) ((e :: acc) ++ rest) :=
      (insertEntry_perm e acc).append_right rest
    have h3 : List.Perm ((e :: acc) ++ rest) (acc ++ e :: rest) := List.perm_middle.symm
    simpa using (h1.trans h2).trans h3

/-- The built priority queue is a permutation of the listener map. -/
theorem buildPriorityQueue_perm (m : ListenerMap) :
    List.Perm (buildPriorityQueue m) m := by
  simpa using sortEntries_aux_perm m []

theorem insertEntry_sorted (e : Entry) (l : List Entry) (h : l.Pairwise entLE) :
    (insertEntry e l).Pairwise entLE := by
  induction l with
  | nil => simp [insertEntry, List.Pairwise.nil]
  | cons x xs ih =>
    rcases List.pairwise_cons.mp h with ⟨hx, hxs⟩
    unfold insertEntry
    split
    · rename_i hle
      refine List.pairwise_cons.mpr ⟨?_, ih hxs⟩
      intro b hb
      have hb' : b ∈ e :: xs := (insertEntry_perm e xs).mem_iff.mp hb
      rcases List.mem_cons.mp hb' with hbe | hbxs
      · subst hbe; exact hle
      · exact hx b hbxs
    · rename_i hgt
      have hle' : entLE e x := le_of_lt (lt_of_not_le hgt)
      refine List.pairwise_cons.mpr ⟨?_, h⟩
      intro b hb
      rcases List.mem_cons.mp hb with hbe | hbxs
      · subst hbe; exact hle'
      · exact le_trans hle' (hx b hbxs)

theorem sortEntries_sorted_aux (l : List Entry) :
    ∀ acc : List Entry, acc.Pairwise entLE →
      (l.foldl (fun acc e => insertEntry e acc) acc).Pairwise entLE := by
  induction l with
  | nil => intro acc hacc; simpa using hacc
  | cons e rest ih =>
    intro acc hacc
    exact ih (insertEntry e acc) (insertEntry_sorted e acc hacc)

theorem sortEntries_sorted (l : List Entry) :
    (sortEntries l).Pairwise entLE :=
  sortEntries_sorted_aux l [] List.Pairwise.nil

/-- The built priority queue is ascending in truncated priority. -/
theorem buildPriorityQueue_sorted (m : ListenerMap) :
    (buildPriorityQueue m).Pairwise entLE :=
  sortEntries_sorted m

theorem filter_insertEntry_of_key (e : Entry) (k : Int) (l : List Entry)
    (hl : l.Pairwise entLE) (he : toInt32 e.2 = k) :
    (insertEntry e l).filter (fun x => decide (toInt32 x.2 = k)) =
      l.filter (fun x => decide (toInt32 x.2 = k)) ++ [e] := by
  induction l with
  | nil => simp [insertEntry, he]
  | cons x xs ih =>
    rcases List.pairwise_cons.mp hl with ⟨hx, hxs⟩
    unfold insertEntry
    split
    · rename_i hle
      by_cases hxk : toInt32 x.2 = k
      · simp [List.filter_cons, hxk, ih hxs]
      · simp [List.filter_cons, hxk, ih hxs]
    · rename_i hgt
      have hke : toInt32 x.2 > k := by
        rw [← he]; exact lt_of_not_le hgt
      have hxk : ¬ toInt32 x.2 = k := ne_of_gt hke
      have hrest : ∀ b ∈ xs, ¬ toInt32 b.2 = k := by
        intro b hb
        have := hx b hb
        have : toInt32 b.2 > k := lt_of_lt_of_le hke this
        exact ne_of_gt this
      have hnil : (x :: xs).filter (fun x => decide (toInt32 x.2 = k)) = [] := by
        rw [List.filter_eq_nil_iff]
        intro a ha
        rcases List.mem_cons.mp ha with h1 | h1
        · subst h1; simp [hxk]
        · simp [hrest a h1]
      simp [List.filter_cons, he, hnil]

theorem filter_insertEntry_of_ne (e : Entry) (k : Int) (l : List Entry)
    (he : ¬ toInt32 e.2 = k) :
    (insertEntry e l).filter (fun x => decide (toInt32 x.2 = k)) =
      l.filter (fun x => decide (toInt32 x.2 = k)) := by
  induction l with
  | nil => simp [insertEntry, he]
  | cons x xs ih =>
    unfold insertEntry
    split
    · simp only [List.filter_cons, ih]
    · simp [List.filter_cons, he]

theorem sortEntries_stable_aux (k : Int) (l : List Entry) :
    ∀ acc : List Entry, acc.Pairwise entLE →
      (l.foldl (fun acc e => insertEntry e acc) acc).filter (fun x => decide (toInt32 x.2 = k)) =
        acc.filter (fun x => decide (toInt32 x.2 = k)) ++
          l.filter (fun x => decide (toInt32 x.2 = k)) := by
  induction l with
  | nil => intro acc hacc; simp
  | cons e rest ih =>
    intro acc hacc
    have hstep := ih (insertEntry e acc) (insertEntry_sorted e acc hacc)
    by_cases he : toInt32 e.2 = k
    · rw [List.foldl_cons, hstep, filter_insertEntry_of_key e k acc hacc he]
      simp [List.filter_cons, he]
    · rw [List.foldl_cons, hstep, filter_insertEntry_of_ne e k acc he]
      simp [List.filter_cons, he]

/-- Stability of the sort: entries of any one (truncated) priority keep
their insertion order. -/
theorem sortEntries_stable (l : List Entry) (k : Int) :
    (sortEntries l).filter (fun x => decide (toInt32 x.2 = k)) =
      l.filter (fun x => decide (toInt32 x.2 = k)) := by
  simpa using sortEntries_stable_aux k l [] List.Pairwise.nil

theorem pcForEach_fst (env : PCEnv) (changes : Changes) (q : List Entry) :
    ∀ acc : Bool, (pcForEach env changes acc q).1 =
      (acc || ((pcForEach env changes acc q).2.any fun c => c.retFalse)) := by
  induction q with
  | nil => intro acc; simp [pcForEach]
  | cons item rest ih =>
    intro acc
    simp only [pcForEach, List.any_cons]
    rw [ih (env item.1 changes acc item.2 || acc)]
    generalize env item.1 changes acc item.2 = r
    cases acc <;> cases r <;> simp

theorem pcForEach_map (env : PCEnv) (changes : Changes) (q : List Entry) :
    ∀ acc : Bool, (pcForEach env changes acc q).2.map (fun c => (c.cb, c.priority)) = q := by
  induction q with
  | nil => intro acc; simp [pcForEach]
  | cons item rest ih =>
    intro acc
    simp [pcForEach, ih]

theorem pcForEach_passed (env : PCEnv) (changes : Changes) (q : List Entry) :
    ∀ (acc : Bool) (i : Nat) (h : i < (pcForEach env changes acc q).2.length),
      ((pcForEach env changes acc q).2.get ⟨i, h⟩).passed =
        (acc || (((pcForEach env changes acc q).2.take i).any fun c => c.retFalse)) := by
  induction q with
  | nil => intro acc i h; simp [pcForEach] at h
  | cons item rest ih =>
    intro acc i h
    match i with
    | 0 => simp [pcForEach]
    | Nat.succ j =>
      have h' : j < (pcForEach env changes (env item.1 changes acc item.2 || acc) rest).2.length := by
        simpa [pcForEach] using h
      have := ih (env item.1 changes acc item.2 || acc) j h'
      simp only [pcForEach, List.get_cons_succ, List.take_succ_cons, List.any_cons] at *
      rw [this]
      generalize env item.1 changes acc item.2 = r
      cases acc <;> cases r <;> simp

/-- When a pre-commit dispatch reports no cancellation, no call in it
returned exactly `false`. -/
theorem notifyPreCommit_false_no_retFalse (env : PCEnv) (cache : List Entry)
    (listeners : ListenerMap) (changes : Changes)
    (h : (notifyPreCommit env cache listeners changes).1 = false) :
    ∀ c ∈ (notifyPreCommit env cache listeners changes).2.2, c.retFalse = false := by
  intro c hc
  have hfst := pcForEach_fst env changes
    (if cache.isEmpty then buildPriorityQueue listeners else cache) false
  simp only [notifyPreCommit] at h hc
  rw [hfst] at h
  simp only [Bool.false_or] at h
  have := List.any_eq_false.mp h c hc
  simpa using this

theorem assocGet_assocSet_self {α β : Type} [DecidableEq α] (l : List (α × β)) (k : α) (v : β) :
    assocGet (assocSet l k v) k = some v := by
  induction l with
  | nil => simp [assocGet, assocSet]
  | cons x xs ih =>
    unfold assocSet
    split
    · simp [assocGet]
    · rename_i hne
      unfold assocGet
      rw [if_neg hne]
      exact ih

theorem assocGet_assocSet_ne {α β : Type} [DecidableEq α] (l : List (α × β)) (k k' : α) (v : β)
    (h : ¬ k' = k) :
    assocGet (assocSet l k v) k' = assocGet l k' := by
  induction l with
  | nil =>
    have h' : ¬ k = k' := fun hh => h hh.symm
    simp [assocGet, assocSet, h']
  | cons x xs ih =>
    unfold assocSet
    split
    · rename_i hk
      unfold assocGet
      rw [if_neg (fun hh => h hh.symm), if_neg (hk ▸ fun hh => h hh.symm)]
    · unfold assocGet
      split
      · rfl
      · exact ih

theorem readStore_assocSet_self (l : PropStore) (p : String) (v : Value) :
    readStore (assocSet l p v) p = v := by
  rw [readStore, assocGet_assocSet_self, Option.getD_some]

/-- The result instance of `getPropertyValues` written as a record
update of the input. -/
theorem getPropertyValues_snd_eq (inst : Instance) :
    (getPropertyValues inst).2 = { inst with values := some (inst.values.getD []) } := by
  cases inst with
  | mk id values susp cl pcl pq pcq => cases values <;> simp [getPropertyValues]

/-- Behaviour of a factory setter on a self-assignment: early return
with nothing dispatched. -/
theorem runSetter_base_noop (env : PCEnv) (p : String) (inst : Instance) (sched : Sched)
    (newValue : Value) (hv : readProp inst p = newValue) :
    runSetter env (SetFn.base p) inst sched newValue = ((getPropertyValues inst).2, sched, []) := by
  subst hv
  simp [runSetter, readStore_getPropertyValues]

/-- Behaviour of a factory setter on a value-changing write whose
pre-commit dispatch cancels: the cache is the only mutated state. -/
theorem runSetter_base_canceled (env : PCEnv) (p : String) (inst : Instance) (sched : Sched)
    (newValue : Value) (hneq : ¬ readProp inst p = newValue)
    (hc : (notifyPreCommit env inst.preCommitPriorityQueue inst.preCommitListeners
      [(p, ⟨readProp inst p, newValue⟩)]).1 = true) :
    runSetter env (SetFn.base p) inst sched newValue =
      ({ inst with
          values := some (inst.values.getD [])
          preCommitPriorityQueue := (notifyPreCommit env inst.preCommitPriorityQueue
            inst.preCommitListeners [(p, ⟨readProp inst p, newValue⟩)]).2.1 },
        sched,
        (notifyPreCommit env inst.preCommitPriorityQueue inst.preCommitListeners
          [(p, ⟨readProp inst p, newValue⟩)]).2.2.map fun c =>
            Ev.pc c.cb c.priority c.passed c.retFalse) := by
  simp only [runSetter, readStore_getPropertyValues, getPropertyValues_snd_eq]
  rw [if_neg hneq]
  simp only [readProp] at hc ⊢
  simp [hc]

/-- Behaviour of a factory setter on a value-changing write whose
pre-commit dispatch does not cancel: the new value is stored and a
notification is queued exactly when the instance is not suspended and
has at least one commit listener. -/
theorem runSetter_base_committed (env : PCEnv) (p : String) (inst : Instance) (sched : Sched)
    (newValue : Value) (hneq : ¬ readProp inst p = newValue)
    (hc : (notifyPreCommit env inst.preCommitPriorityQueue inst.preCommitListeners
      [(p, ⟨readProp inst p, newValue⟩)]).1 = false) :
    runSetter env (SetFn.base p) inst sched newValue =
      ({ inst with
          values := some (assocSet (inst.values.getD []) p newValue)
          preCommitPriorityQueue := (notifyPreCommit env inst.preCommitPriorityQueue
            inst.preCommitListeners [(p, ⟨readProp inst p, newValue⟩)]).2.1 },
        (if inst.suspendNotifications = false ∧ inst.changeListeners ≠ []
          then queueNotification inst.id p (readProp inst p) newValue sched else sched),
        (if inst.suspendNotifications = false ∧ inst.changeListeners ≠ []
          then ((notifyPreCommit env inst.preCommitPriorityQueue inst.preCommitListeners
            [(p, ⟨readProp inst p, newValue⟩)]).2.2.map fun c =>
              Ev.pc c.cb c.priority c.passed c.retFalse) ++
            [Ev.enq inst.id p (readProp inst p) newValue]
          else ((notifyPreCommit env inst.preCommitPriorityQueue inst.preCommitListeners
            [(p, ⟨readProp inst p, newValue⟩)]).2.2.map fun c =>
              Ev.pc c.cb c.priority c.passed c.retFalse))) := by
  simp only [runSetter, readStore_getPropertyValues, getPropertyValues_snd_eq]
  rw [if_neg hneq]
  simp only [readProp] at hc ⊢
  simp [hc, getPropertyValues]

theorem addUnique_mem (acc : List Nat) (o x : Nat) :
    x ∈ addUnique acc o ↔ x ∈ acc ∨ x = o := by
  unfold addUnique
  split
  · rename_i h
    constructor
    · exact Or.inl
    · rintro (hx | rfl)
      · exact hx
      · exact h
  · simp [List.mem_append]

theorem foldl_addUnique_mem (l : List Nat) :
    ∀ (acc : List Nat) (x : Nat), x ∈ l.foldl addUnique acc ↔ x ∈ acc ∨ x ∈ l := by
  induction l with
  | nil => intro acc x; simp
  | cons o rest ih =>
    intro acc x
    rw [List.foldl_cons, ih, addUnique_mem]
    simp [List.mem_cons]
    tauto

theorem addUnique_nodup (acc : List Nat) (o : Nat) (h : acc.Nodup) :
    (addUnique acc o).Nodup := by
  unfold addUnique
  split
  · exact h
  · rename_i hno
    simp [List.nodup_append, h, hno]

theorem foldl_addUnique_nodup (l : List Nat) :
    ∀ acc : List Nat, acc.Nodup → (l.foldl addUnique acc).Nodup := by
  induction l with
  | nil => intro acc h; simpa using h
  | cons o rest ih =>
    intro acc h
    rw [List.foldl_cons]
    exact ih (addUnique acc o) (addUnique_nodup acc o h)

theorem runEvents_queue (evs : List WriteEvent) :
    ∀ s : Sched, (runEvents evs s).queue = (effOwners evs).foldl addUnique s.queue := by
  induction evs with
  | nil => intro s; simp [runEvents, effOwners]
  | cons e rest ih =>
    intro s
    show (runEvents rest (queueNotification e.source e.propertyName e.oldValue e.newValue s)).queue = _
    by_cases he : e.oldValue = e.newValue
    · have hq : queueNotification e.source e.propertyName e.oldValue e.newValue s = s := by
        simp [queueNotification, he]
      rw [hq, ih]
      have : effOwners (e :: rest) = effOwners rest := by
        simp [effOwners, List.filter_cons, he]
      rw [this]
    · rw [ih]
      have h1 : (queueNotification e.source e.propertyName e.oldValue e.newValue s).queue =
          addUnique s.queue e.source := by
        simp [queueNotification, he]
      have h2 : effOwners (e :: rest) = e.source :: effOwners rest := by
        simp [effOwners, List.filter_cons, he]
      rw [h1, h2, List.foldl_cons]

theorem runEvents_changes (evs : List WriteEvent) :
    ∀ (s : Sched) (o : Nat),
      assocGet (runEvents evs s).changesByObject o =
        evs.foldl (ownStep o) (assocGet s.changesByObject o) := by
  induction evs with
  | nil => intro s o; rfl
  | cons e rest ih =>
    intro s o
    show assocGet (runEvents rest
        (queueNotification e.source e.propertyName e.oldValue e.newValue s)).changesByObject o = _
    rw [List.foldl_cons, ih]
    congr 1
    by_cases he : e.oldValue = e.newValue
    · simp [queueNotification, he, ownStep]
    · by_cases ho : e.source = o
      · subst ho
        simp [queueNotification, he, ownStep, assocGet_assocSet_self]
      · have hne : ¬ o = e.source := fun hh => ho hh.symm
        simp [queueNotification, he, ownStep, ho,
          assocGet_assocSet_ne s.changesByObject e.source o _ hne]

theorem foldl_ownStep_some (o : Nat) (evs : List WriteEvent) :
    ∀ c : Changes, evs.foldl (ownStep o) (some c) = some (ownAccum o evs c) := by
  induction evs with
  | nil => intro c; rfl
  | cons e rest ih =>
    intro c
    rw [List.foldl_cons]
    by_cases hcond : e.source = o ∧ ¬ e.oldValue = e.newValue
    · simp only [ownStep, ownAccum, ownUpdate, if_pos hcond, Option.getD_some]
      exact ih (assocSet c e.propertyName ⟨e.oldValue, e.newValue⟩)
    · simp only [ownStep, ownAccum, ownUpdate, if_neg hcond]
      exact ih c

theorem foldl_ownStep_none_of_mem (o : Nat) (evs : List WriteEvent)
    (h : o ∈ effOwners evs) :
    evs.foldl (ownStep o) none = some (ownChanges o evs) := by
  induction evs with
  | nil => simp [effOwners] at h
  | cons e rest ih =>
    rw [List.foldl_cons]
    by_cases hcond : e.source = o ∧ ¬ e.oldValue = e.newValue
    · simp only [ownStep, if_pos hcond, Option.getD_none]
      rw [foldl_ownStep_some]
      have : ownChanges o (e :: rest) =
          ownAccum o rest (assocSet [] e.propertyName ⟨e.oldValue, e.newValue⟩) := by
        simp [ownChanges, ownAccum, ownUpdate, if_pos hcond]
      rw [this]
    · simp only [ownStep, if_neg hcond]
      have hrest : o ∈ effOwners rest := by
        by_cases he : e.oldValue = e.newValue
        · simpa [effOwners, List.filter_cons, he] using h
        · have h2 : effOwners (e :: rest) = e.source :: effOwners rest := by
            simp [effOwners, List.filter_cons, he]
          rw [h2] at h
          rcases List.mem_cons.mp h with hh | hh
          · exact absurd ⟨hh.symm, he⟩ hcond
          · exact hh
      have : ownChanges o (e :: rest) = ownChanges o rest := by
        simp [ownChanges, ownAccum, ownUpdate, if_neg hcond]
      rw [this]
      exact ih hrest

theorem flush_trace_aux (cbo : List (Nat × Changes)) (q : List Nat) :
    ∀ (acc : List (Nat × Changes × List Entry)) (w : Nat → Instance),
      ((q.foldl (flushStep cbo) (acc, w)).1).map (fun d => (d.1, d.2.1)) =
        acc.map (fun d => (d.1, d.2.1)) ++ q.map (fun o => (o, (assocGet cbo o).getD [])) := by
  induction q with
  | nil => intro acc w; simp
  | cons o rest ih =>
    intro acc w
    rw [List.foldl_cons]
    show ((rest.foldl (flushStep cbo) (flushStep cbo (acc, w) o)).1).map _ = _
    rw [flushStep, ih]
    simp

/-- The (owner, changes) part of the flush trace is exactly the queue
paired with each owner's accumulated change record. -/
theorem flush_trace (world : Nat → Instance) (s : Sched) :
    ((flush world s).1).map (fun d => (d.1, d.2.1)) =
      s.queue.map (fun o => (o, (assocGet s.changesByObject o).getD [])) := by
  have h := flush_trace_aux s.changesByObject s.queue [] world
  simpa [flush] using h

end Lemmas

/-- C10: reading a bound property whose instance has no value store yet
returns `undefined` and lazily creates the (initially empty) store; the
read is total (never throws). -/
theorem unwritten_read_undefined (inst : Instance) (p : String)
    (h : inst.values = none) :
    (runGetter (createGetter p) inst).1 = none ∧
    (runGetter (createGetter p) inst).2.values = some [] := by
  constructor
  · simp [runGetter, createGetter, getPropertyValues, h, readStore, assocGet]
  · simp [runGetter, createGetter, getPropertyValues, h]

/-- Witness for C10 at a fresh instance. -/
theorem unwritten_read_undefined_witness :
    (freshInstance 0).values = none ∧
    ((runGetter (createGetter "a") (freshInstance 0)).1 = none ∧
      (runGetter (createGetter "a") (freshInstance 0)).2.values = some []) :=
  ⟨rfl, unwritten_read_undefined (freshInstance 0) "a" rfl⟩

/-- C6: writing a property's current value back to it is a complete
no-op — no pre-commit or commit listener runs, nothing is enqueued, and
the stored value is unchanged; likewise `queueNotification` with
`oldValue === newValue` leaves the scheduler untouched. -/
theorem self_assignment_noop :
    (∀ (env : PCEnv) (p : String) (inst : Instance) (sched : Sched),
      (runSetter env (SetFn.base p) inst sched (readProp inst p)).2.1 = sched ∧
      (runSetter env (SetFn.base p) inst sched (readProp inst p)).2.2 = [] ∧
      readProp (runSetter env (SetFn.base p) inst sched (readProp inst p)).1 p =
        readProp inst p) ∧
    (∀ (sched : Sched) (source : Nat) (p : String) (v : Value),
      queueNotification source p v v sched = sched) := by
  constructor
  · intro env p inst sched
    have hrun : runSetter env (SetFn.base p) inst sched (readProp inst p) =
        ((getPropertyValues inst).2, sched, []) := by
      simp [runSetter, readStore_getPropertyValues]
    rw [hrun]
    exact ⟨rfl, rfl, readProp_getPropertyValues_snd inst p⟩
  · intro sched source p v
    simp [queueNotification]

/-- C2: when at least one pre-commit listener returns exactly `false`
during a write to a bound property, the stored value keeps its
pre-write value, the scheduler state is untouched (so the change never
reaches the pending change set and no commit listener is ever invoked
for that write), and no enqueue happens. -/
theorem veto_blocks_store_and_queue (env : PCEnv) (p : String) (inst : Instance)
    (sched : Sched) (newValue : Value)
    (h : ∃ e ∈ (runSetter env (SetFn.base p) inst sched newValue).2.2, e.retFalse = true) :
    (runSetter env (SetFn.base p) inst sched newValue).2.1 = sched
    ∧ readProp (runSetter env (SetFn.base p) inst sched newValue).1 p = readProp inst p
    ∧ ∀ e ∈ (runSetter env (SetFn.base p) inst sched newValue).2.2, e.isEnq = false := by
  by_cases hv : readProp inst p = newValue
  · rw [runSetter_base_noop env p inst sched newValue hv] at h
    simp at h
  · by_cases hc : (notifyPreCommit env inst.preCommitPriorityQueue inst.preCommitListeners
      [(p, ⟨readProp inst p, newValue⟩)]).1 = true
    · rw [runSetter_base_canceled env p inst sched newValue hv hc]
      refine ⟨rfl, ?_, ?_⟩
      · simp [readProp]
      · intro e he
        rcases List.mem_map.mp he with ⟨c, _, hce⟩
        rw [← hce]
        rfl
    · exfalso
      have hc' : (notifyPreCommit env inst.preCommitPriorityQueue inst.preCommitListeners
          [(p, ⟨readProp inst p, newValue⟩)]).1 = false := by
        cases hb : (notifyPreCommit env inst.preCommitPriorityQueue inst.preCommitListeners
          [(p, ⟨readProp inst p, newValue⟩)]).1
        · rfl
        · exact absurd hb hc
      rcases h with ⟨e, he, hret⟩
      rw [runSetter_base_committed env p inst sched newValue hv hc'] at he
      have hnof := notifyPreCommit_false_no_retFalse env inst.preCommitPriorityQueue
        inst.preCommitListeners [(p, ⟨readProp inst p, newValue⟩)] hc'
      by_cases hq : inst.suspendNotifications = false ∧ inst.changeListeners ≠ []
      · simp only [if_pos hq] at he
        rcases List.mem_append.mp he with hm | hm
        · rcases List.mem_map.mp hm with ⟨c, hcmem, hce⟩
          rw [← hce] at hret
          simp only [Ev.retFalse] at hret
          rw [hnof c hcmem] at hret
          exact absurd hret (by decide)
        · have : e = Ev.enq inst.id p (readProp inst p) newValue := by simpa using hm
          rw [this] at hret
          simp [Ev.retFalse] at hret
      · simp only [if_neg hq] at he
        rcases List.mem_map.mp he with ⟨c, hcmem, hce⟩
        rw [← hce] at hret
        simp only [Ev.retFalse] at hret
        rw [hnof c hcmem] at hret
        exact absurd hret (by decide)

/-- Witness for C2: one pre-commit listener that always returns exactly
`false` vetoes a value-changing write. -/
theorem veto_blocks_store_and_queue_witness :
    (∃ e ∈ (runSetter (fun _ _ _ _ => true) (SetFn.base "a")
      (⟨0, some [("a", some 5)], false, [(9, 0)], [(4, 0)], [], []⟩ : Instance)
      initialSched (some 9)).2.2, e.retFalse = true) ∧
    ((runSetter (fun _ _ _ _ => true) (SetFn.base "a")
      (⟨0, some [("a", some 5)], false, [(9, 0)], [(4, 0)], [], []⟩ : Instance)
      initialSched (some 9)).2.1 = initialSched
    ∧ readProp (runSetter (fun _ _ _ _ => true) (SetFn.base "a")
        (⟨0, some [("a", some 5)], false, [(9, 0)], [(4, 0)], [], []⟩ : Instance)
        initialSched (some 9)).1 "a" =
      readProp (⟨0, some [("a", some 5)], false, [(9, 0)], [(4, 0)], [], []⟩ : Instance) "a"
    ∧ ∀ e ∈ (runSetter (fun _ _ _ _ => true) (SetFn.base "a")
        (⟨0, some [("a", some 5)], false, [(9, 0)], [(4, 0)], [], []⟩ : Instance)
        initialSched (some 9)).2.2, e.isEnq = false) :=
  ⟨by decide, veto_blocks_store_and_queue (fun _ _ _ _ => true) "a"
    (⟨0, some [("a", some 5)], false, [(9, 0)], [(4, 0)], [], []⟩ : Instance)
    initialSched (some 9) (by decide)⟩

/-- C5 counterexample: on an instance with `suspendNotifications =
false` and no commit listeners, a value-changing, non-vetoed write
stores the value but enqueues nothing — the claim asserts this
combination still enqueues. -/
theorem enqueue_skipped_without_listeners_cex :
    readProp (runSetter (fun _ _ _ _ => false) (SetFn.base "a")
      (⟨0, some [("a", some 0)], false, [], [], [], []⟩ : Instance)
      initialSched (some 1)).1 "a" = some 1
    ∧ (runSetter (fun _ _ _ _ => false) (SetFn.base "a")
      (⟨0, some [("a", some 0)], false, [], [], [], []⟩ : Instance)
      initialSched (some 1)).2.1 = initialSched
    ∧ ∀ e ∈ (runSetter (fun _ _ _ _ => false) (SetFn.base "a")
      (⟨0, some [("a", some 0)], false, [], [], [], []⟩ : Instance)
      initialSched (some 1)).2.2, e.isEnq = false := by
  decide

/-- C5 (amended): after a non-vetoed, value-changing write the new
value is stored, and a change notification is enqueued exactly when
`suspendNotifications` is `false` AND at least one commit listener
exists; in every other combination nothing is enqueued. -/
theorem store_then_enqueue_iff_active_listeners (env : PCEnv) (p : String) (inst : Instance)
    (sched : Sched) (newValue : Value)
    (hneq : ¬ readProp inst p = newValue)
    (hpc : (notifyPreCommit env inst.preCommitPriorityQueue inst.preCommitListeners
      [(p, ⟨readProp inst p, newValue⟩)]).1 = false) :
    readProp (runSetter env (SetFn.base p) inst sched newValue).1 p = newValue
    ∧ (runSetter env (SetFn.base p) inst sched newValue).2.1 =
        (if inst.suspendNotifications = false ∧ inst.changeListeners ≠ []
          then queueNotification inst.id p (readProp inst p) newValue sched else sched)
    ∧ ((∃ e ∈ (runSetter env (SetFn.base p) inst sched newValue).2.2, e.isEnq = true) ↔
        (inst.suspendNotifications = false ∧ inst.changeListeners ≠ [])) := by
  rw [runSetter_base_committed env p inst sched newValue hneq hpc]
  refine ⟨?_, rfl, ?_⟩
  · simp [readProp, readStore_assocSet_self]
  · by_cases hq : inst.suspendNotifications = false ∧ inst.changeListeners ≠ []
    · rw [if_pos hq]
      simp only [iff_true_intro hq, iff_true]
      exact ⟨Ev.enq inst.id p (readProp inst p) newValue, by simp, rfl⟩
    · rw [if_neg hq]
      simp only [iff_false_intro hq, iff_false]
      intro hex
      rcases hex with ⟨e, he, henq⟩
      rcases List.mem_map.mp he with ⟨c, _, hce⟩
      rw [← hce] at henq
      simp [Ev.isEnq] at henq

/-- Witness for C5 (amended): suspended off and one commit listener
registered, so the write is enqueued. -/
theorem store_then_enqueue_iff_active_listeners_witness :
    (¬ readProp (⟨0, some [("a", some 0)], false, [(9, 0)], [], [], []⟩ : Instance) "a" = some 1) ∧
    (readProp (runSetter (fun _ _ _ _ => false) (SetFn.base "a")
      (⟨0, some [("a", some 0)], false, [(9, 0)], [], [], []⟩ : Instance)
      initialSched (some 1)).1 "a" = some 1
    ∧ (runSetter (fun _ _ _ _ => false) (SetFn.base "a")
        (⟨0, some [("a", some 0)], false, [(9, 0)], [], [], []⟩ : Instance)
        initialSched (some 1)).2.1 =
      (if (⟨0, some [("a", some 0)], false, [(9, 0)], [], [], []⟩ : Instance).suspendNotifications = false ∧
          (⟨0, some [("a", some 0)], false, [(9, 0)], [], [], []⟩ : Instance).changeListeners ≠ []
        then queueNotification (⟨0, some [("a", some 0)], false, [(9, 0)], [], [], []⟩ : Instance).id "a"
          (readProp (⟨0, some [("a", some 0)], false, [(9, 0)], [], [], []⟩ : Instance) "a") (some 1)
          initialSched
        else initialSched)
    ∧ ((∃ e ∈ (runSetter (fun _ _ _ _ => false) (SetFn.base "a")
        (⟨0, some [("a", some 0)], false, [(9, 0)], [], [], []⟩ : Instance)
        initialSched (some 1)).2.2, e.isEnq = true) ↔
      ((⟨0, some [("a", some 0)], false, [(9, 0)], [], [], []⟩ : Instance).suspendNotifications = false ∧
        (⟨0, some [("a", some 0)], false, [(9, 0)], [], [], []⟩ : Instance).changeListeners ≠ []))) :=
  ⟨by decide, store_then_enqueue_iff_active_listeners (fun _ _ _ _ => false) "a"
    (⟨0, some [("a", some 0)], false, [(9, 0)], [], [], []⟩ : Instance)
    initialSched (some 1) (by decide) (by decide)⟩

/-- C9: `suspendNotifications` defaults to `false`; while it is `true`
a value-changing, non-vetoed write still updates the stored value but
enqueues nothing (so commit listeners are not notified); once it is
`false` again, such writes (with at least one commit listener) are
enqueued for commit notification. -/
theorem suspend_flag_gates_enqueue :
    (∀ id : Nat, (freshInstance id).suspendNotifications = false)
    ∧ (∀ (env : PCEnv) (p : String) (inst : Instance) (sched : Sched) (newValue : Value),
        inst.suspendNotifications = true →
        ¬ readProp inst p = newValue →
        (notifyPreCommit env inst.preCommitPriorityQueue inst.preCommitListeners
          [(p, ⟨readProp inst p, newValue⟩)]).1 = false →
        readProp (runSetter env (SetFn.base p) inst sched newValue).1 p = newValue
        ∧ (runSetter env (SetFn.base p) inst sched newValue).2.1 = sched
        ∧ ∀ e ∈ (runSetter env (SetFn.base p) inst sched newValue).2.2, e.isEnq = false)
    ∧ (∀ (env : PCEnv) (p : String) (inst : Instance) (sched : Sched) (newValue : Value),
        inst.suspendNotifications = false →
        inst.changeListeners ≠ [] →
        ¬ readProp inst p = newValue →
        (notifyPreCommit env inst.preCommitPriorityQueue inst.preCommitListeners
          [(p, ⟨readProp inst p, newValue⟩)]).1 = false →
        readProp (runSetter env (SetFn.base p) inst sched newValue).1 p = newValue
        ∧ (runSetter env (SetFn.base p) inst sched newValue).2.1 =
            queueNotification inst.id p (readProp inst p) newValue sched) := by
  refine ⟨fun _ => rfl, ?_, ?_⟩
  · intro env p inst sched newValue hs hneq hpc
    rw [runSetter_base_committed env p inst sched newValue hneq hpc]
    have hq : ¬ (inst.suspendNotifications = false ∧ inst.changeListeners ≠ []) := by
      rw [hs]
      simp
    rw [if_neg hq, if_neg hq]
    refine ⟨?_, rfl, ?_⟩
    · simp [readProp, readStore_assocSet_self]
    · intro e he
      rcases List.mem_map.mp he with ⟨c, _, hce⟩
      rw [← hce]
      rfl
  · intro env p inst sched newValue hs hl hneq hpc
    rw [runSetter_base_committed env p inst sched newValue hneq hpc]
    rw [if_pos ⟨hs, hl⟩]
    exact ⟨by simp [readProp, readStore_assocSet_self], rfl⟩

/-- Witness for C9: the suspended write leaves the scheduler untouched
while storing the value; the unsuspended write enqueues. -/
theorem suspend_flag_gates_enqueue_witness :
    (freshInstance 0).suspendNotifications = false
    ∧ (readProp (runSetter (fun _ _ _ _ => false) (SetFn.base "a")
        (⟨0, some [("a", some 0)], true, [(9, 0)], [], [], []⟩ : Instance)
        initialSched (some 1)).1 "a" = some 1
      ∧ (runSetter (fun _ _ _ _ => false) (SetFn.base "a")
          (⟨0, some [("a", some 0)], true, [(9, 0)], [], [], []⟩ : Instance)
          initialSched (some 1)).2.1 = initialSched
      ∧ ∀ e ∈ (runSetter (fun _ _ _ _ => false) (SetFn.base "a")
          (⟨0, some [("a", some 0)], true, [(9, 0)], [], [], []⟩ : Instance)
          initialSched (some 1)).2.2, e.isEnq = false)
    ∧ (readProp (runSetter (fun _ _ _ _ => false) (SetFn.base "a")
        (⟨0, some [("a", some 0)], false, [(9, 0)], [], [], []⟩ : Instance)
        initialSched (some 1)).1 "a" = some 1
      ∧ (runSetter (fun _ _ _ _ => false) (SetFn.base "a")
          (⟨0, some [("a", some 0)], false, [(9, 0)], [], [], []⟩ : Instance)
          initialSched (some 1)).2.1 =
        queueNotification (⟨0, some [("a", some 0)], false, [(9, 0)], [], [], []⟩ : Instance).id "a"
          (readProp (⟨0, some [("a", some 0)], false, [(9, 0)], [], [], []⟩ : Instance) "a")
          (some 1) initialSched) :=
  ⟨rfl,
    suspend_flag_gates_enqueue.2.1 (fun _ _ _ _ => false) "a"
      (⟨0, some [("a", some 0)], true, [(9, 0)], [], [], []⟩ : Instance)
      initialSched (some 1) rfl (by decide) (by decide),
    suspend_flag_gates_enqueue.2.2 (fun _ _ _ _ => false) "a"
      (⟨0, some [("a", some 0)], false, [(9, 0)], [], [], []⟩ : Instance)
      initialSched (some 1) rfl (by decide) (by decide) (by decide)⟩

/-- C1 counterexample: three synchronous writes `1; 2; 3` to a property
whose value was `undefined` produce, at the next flush, a changes entry
`{oldValue: 2, newValue: 3}` — `queueNotification` overwrites the whole
entry on every write, so `oldValue` is not the value held before the
first write of the cycle (`undefined`), contradicting the claim. -/
theorem coalesced_oldValue_not_first_cex :
    threeWrites (fun _ _ _ _ => false) 0 "a" [(7, 0)] none (some 1) (some 2) (some 3) =
      [(0, [("a", ⟨some 2, some 3⟩)], [(7, 0)])]
    ∧ (⟨some 2, some 3⟩ : Change).oldValue ≠ (none : Value) := by
  constructor
  · decide
  · decide

/-- C1 (amended): several synchronous writes with distinct values to
one bound property yield exactly one commit dispatch for the owner at
the next flush, invoking each registered commit listener exactly once,
with `newValue` the last written value and `oldValue` the value the
property held immediately before the last write (not the value before
the first write of the cycle). -/
theorem coalesced_flush_once_with_latest_old_new
    (env : PCEnv) (o : Nat) (p : String) (L : ListenerMap) (v0 v1 v2 v3 : Value)
    (hL : L ≠ []) (hK : (L.map Prod.fst).Nodup)
    (h1 : ¬ v0 = v1) (h2 : ¬ v1 = v2) (h3 : ¬ v2 = v3) :
    threeWrites env o p L v0 v1 v2 v3 = [(o, [(p, ⟨v2, v3⟩)], buildPriorityQueue L)]
    ∧ List.Perm ((buildPriorityQueue L).map Prod.fst) (L.map Prod.fst)
    ∧ ∀ cb ∈ L.map Prod.fst, ((buildPriorityQueue L).map Prod.fst).count cb = 1 := by
  refine ⟨?_, ?_, ?_⟩
  · simp [threeWrites, runSetter, getPropertyValues, readStore, assocGet, assocSet,
      notifyPreCommit, pcForEach, buildPriorityQueue, sortEntries, queueNotification,
      addUnique, initialSched, flush, flushStep, notify, h1, h2, h3, hL]
  · exact (buildPriorityQueue_perm L).map Prod.fst
  · intro cb hcb
    rw [List.Perm.count_eq ((buildPriorityQueue_perm L).map Prod.fst)]
    exact List.count_eq_one_of_mem hK hcb

/-- Witness for C1 (amended) on the spec's own example run. -/
theorem coalesced_flush_once_with_latest_old_new_witness :
    (([(7, 0)] : ListenerMap) ≠ [] ∧ ¬ (none : Value) = some 1) ∧
    (threeWrites (fun _ _ _ _ => false) 0 "a" [(7, 0)] none (some 1) (some 2) (some 3) =
        [(0, [("a", ⟨some 2, some 3⟩)], buildPriorityQueue [(7, 0)])]
      ∧ List.Perm ((buildPriorityQueue [(7, 0)]).map Prod.fst)
          (([(7, 0)] : ListenerMap).map Prod.fst)
      ∧ ∀ cb ∈ ([(7, 0)] : ListenerMap).map Prod.fst,
          ((buildPriorityQueue [(7, 0)]).map Prod.fst).count cb = 1) :=
  ⟨⟨by decide, by decide⟩,
    coalesced_flush_once_with_latest_old_new (fun _ _ _ _ => false) 0 "a"
      [(7, 0)] none (some 1) (some 2) (some 3) (by decide) (by decide)
      (by decide) (by decide) (by decide)⟩

/-- C3: dispatch order is the stable sort of the registered listeners
by ascending (32-bit truncated) priority, ties broken by insertion
order.  In particular, with L1 = callback 1 (priority 5), L2 = callback
2 (priority 1), L3 = callback 3 (priority 5) added in order L1, L3, L2,
a dispatch invokes them in order L2, L1, L3.  The general clauses state
sortedness, permutation (every listener dispatched), and stability
(entries of equal truncated priority keep insertion order). -/
theorem dispatch_order_priority_stable :
    (∀ changes : Changes,
      ((notify (addChangeListener (addChangeListener (addChangeListener
        (freshInstance 0) 1 5) 3 5) 2 1) changes).2).map Prod.fst = [2, 1, 3])
    ∧ (∀ m : ListenerMap, (buildPriorityQueue m).Pairwise entLE)
    ∧ (∀ m : ListenerMap, List.Perm (buildPriorityQueue m) m)
    ∧ (∀ (m : ListenerMap) (k : Int),
        (buildPriorityQueue m).filter (fun x => decide (toInt32 x.2 = k)) =
          m.filter (fun x => decide (toInt32 x.2 = k))) := by
  refine ⟨?_, buildPriorityQueue_sorted, buildPriorityQueue_perm, ?_⟩
  · intro changes
    rfl
  · intro m k
    exact sortEntries_stable m k

/-- C7: within one pre-commit dispatch the canceled flag accumulates:
the dispatcher returns true exactly when some call returned exactly
`false`; every queued listener runs, in queue order; and the flag passed
to the i-th call records whether any earlier call returned exactly
`false` (so once true it stays true and no listener can un-cancel). -/
theorem preCommit_cancel_accumulates (env : PCEnv) (cache : List Entry)
    (listeners : ListenerMap) (changes : Changes) :
    ((notifyPreCommit env cache listeners changes).1 =
      ((notifyPreCommit env cache listeners changes).2.2.any fun c => c.retFalse))
    ∧ ((notifyPreCommit env cache listeners changes).2.2.map (fun c => (c.cb, c.priority)) =
      (notifyPreCommit env cache listeners changes).2.1)
    ∧ (∀ (i : Nat) (h : i < (notifyPreCommit env cache listeners changes).2.2.length),
      ((notifyPreCommit env cache listeners changes).2.2.get ⟨i, h⟩).passed =
        (((notifyPreCommit env cache listeners changes).2.2.take i).any fun c => c.retFalse)) := by
  refine ⟨?_, ?_, ?_⟩
  · have h := pcForEach_fst env changes
      (if cache.isEmpty then buildPriorityQueue listeners else cache) false
    simpa [notifyPreCommit] using h
  · have h := pcForEach_map env changes
      (if cache.isEmpty then buildPriorityQueue listeners else cache) false
    simpa [notifyPreCommit] using h
  · intro i h
    have h' : i < (pcForEach env changes false
        (if cache.isEmpty then buildPriorityQueue listeners else cache)).2.length := h
    have hp := pcForEach_passed env changes
      (if cache.isEmpty then buildPriorityQueue listeners else cache) false i h'
    simpa [notifyPreCommit] using hp

/-- Witness for C7: two pre-commit listeners, the first returning
exactly `false`; the second call receives the already-flipped flag. -/
theorem preCommit_cancel_accumulates_witness :
    (1 < (notifyPreCommit (fun cb _ _ _ => decide (cb = 0)) [] [(0, 0), (1, 1)]
      ([] : Changes)).2.2.length) ∧
    ((notifyPreCommit (fun cb _ _ _ => decide (cb = 0)) [] [(0, 0), (1, 1)]
      ([] : Changes)).2.2.get ⟨1, by decide⟩).passed =
      (((notifyPreCommit (fun cb _ _ _ => decide (cb = 0)) [] [(0, 0), (1, 1)]
        ([] : Changes)).2.2.take 1).any fun c => c.retFalse) :=
  ⟨by decide, (preCommit_cancel_accumulates (fun cb _ _ _ => decide (cb = 0)) [] [(0, 0), (1, 1)]
    ([] : Changes)).2.2 1 (by decide)⟩

/-- C4 (code bug): binding a property twice is not a silent no-op.  The
"already bound" guard can never fire, because no getter is ever
registered in `activeBindings`.  (1)/(2): on a previously absent
property the first application installs the accessor pair without
specifying `configurable`, leaving the property non-configurable, so
the second application reaches `Object.defineProperty` with a fresh
setter closure and throws a `TypeError`.  (3): when redefinition is
permitted (the property pre-existed as configurable, so its attribute
was retained), the second application silently re-wraps the factory
accessor pair instead of no-opping.  (4): through such a double-wrapped
setter, a single vetoed write dispatches the pre-commit listener twice,
not exactly once. -/
theorem double_bind_throws :
    bindable "a" freshProto =
      Except.ok (⟨[("a", ⟨some (createGetter "a"), some (SetFn.base "a"), false, false⟩)],
        true, []⟩ : Proto)
    ∧ Except.bind (bindable "a" freshProto) (fun pr => bindable "a" pr) =
      Except.error ()
    ∧ bindable "a"
        (⟨[("a", ⟨some (createGetter "a"), some (SetFn.base "a"), false, true⟩)],
          true, []⟩ : Proto) =
      Except.ok (⟨[("a", ⟨some (createGetter "a"),
        some (SetFn.wrap "a" (some (createGetter "a")) (SetFn.base "a")), false, true⟩)],
        true, []⟩ : Proto)
    ∧ (runSetter (fun _ _ _ _ => true)
        (SetFn.wrap "a" (some (createGetter "a")) (SetFn.base "a"))
        (⟨0, some [("a", some 0)], false, [], [(4, 0)], [], []⟩ : Instance)
        initialSched (some 1)).2.2 =
      [Ev.pc 4 0 false true, Ev.pc 4 0 false true] := by
  refine ⟨rfl, rfl, rfl, by decide⟩

/-- C8: for any sequence of same-tick `queueNotification` calls, the
flush dispatches each owner with at least one effective (value-changing)
write exactly once — the dispatch list is duplicate-free — in the order
of the owners' first effective enqueue, and each dispatch carries
exactly that owner's own accumulated changes. -/
theorem flush_dispatch_per_owner_in_first_enqueue_order
    (world : Nat → Instance) (evs : List WriteEvent) :
    ((flush world (runEvents evs initialSched)).1).map (fun d => (d.1, d.2.1)) =
      (firstOccurs (effOwners evs)).map (fun o => (o, ownChanges o evs))
    ∧ (firstOccurs (effOwners evs)).Nodup := by
  constructor
  · rw [flush_trace]
    have hq : (runEvents evs initialSched).queue = firstOccurs (effOwners evs) := by
      rw [runEvents_queue]
      rfl
    rw [hq]
    rw [List.map_eq_map_iff]
    intro o ho
    have homem : o ∈ effOwners evs := by
      rcases (foldl_addUnique_mem (effOwners evs) [] o).mp ho with hn | hm
      · simp at hn
      · exact hm
    have hch := runEvents_changes evs initialSched o
    rw [show assocGet initialSched.changesByObject o = none from rfl] at hch
    rw [foldl_ownStep_none_of_mem o evs homem] at hch
    rw [hch]
    rfl
  · exact foldl_addUnique_nodup (effOwners evs) [] List.nodup_nil

end BindProperty
